import Mathlib

/-!
Verification of the sourcemap error-stack resolution pipeline
(`src/utils/sourcemapParser.ts`, `src/App.tsx`).

Strings are modelled as `List Char` (`Str`).  JavaScript semantics that the
code relies on are embedded explicitly:
* `String.prototype.trim`, `split`, `includes`, `replace` with the concrete
  anchored patterns used by the code;
* truthiness of strings (`""` is falsy) and of parsed JSON values;
* `Array.prototype.sort` is stable (ECMAScript 2019), so the candidate-column
  sort is modelled by a stable insertion sort on the comparator's key;
* `JSON.parse` is a host primitive; it is passed in as a parameter
  `jp : Str → Option Json` (`none` models a parse exception);
* the `source-map` library's `SourceMapConsumer` is an external capability
  (version 0.7: `main.jsx` loads its wasm module before rendering).  Its
  `originalPositionFor` with the default `GREATEST_LOWER_BOUND` bias
  returns the mapping with the largest generated column not exceeding the
  query on the queried generated line (`consumerQuery`).  Decoding a
  document is a parameter `decode : SourceMapContent → Option QueryFun`;
  the shipped decoder (`consumerDecode`) always succeeds.  A real decode
  failure never surfaces as a value: `SourceMapConsumer.with` is
  asynchronous and rejects its promise on a malformed document, and
  `getConsumer` wraps the call in a resolve-only promise that discards the
  rejection, so the awaiting call never returns.  `parseSourceMapAwait`
  models that settling behaviour; `parseSourceMap`/`parseSourceMapCore`
  are its terminating fragment.
-/

/-- JavaScript strings, modelled as lists of characters. -/
abbrev Str := List Char

/-- Whitespace for `String.prototype.trim` and the regex class `\s`. -/
def jsWsB (c : Char) : Bool :=
  c = ' ' ∨ c = '\t' ∨ c = '\n' ∨ c = '\r' ∨ c = Char.ofNat 0x0B ∨
  c = Char.ofNat 0x0C ∨ c = Char.ofNat 0xA0 ∨ c = Char.ofNat 0xFEFF

/-- Characters matched by the regex metacharacter `.` (anything but a line
terminator). -/
def isDotChar (c : Char) : Bool :=
  ¬(c = '\n' ∨ c = '\r' ∨ c = Char.ofNat 0x2028 ∨ c = Char.ofNat 0x2029)

/-- `String.prototype.trim`. -/
def jsTrim (s : Str) : Str :=
  ((s.dropWhile jsWsB).reverse.dropWhile jsWsB).reverse

/-- Helper for `String.prototype.split` with a one-character separator. -/
def splitCharAux (sep : Char) : Str → Str → List Str
  | [], acc => [acc.reverse]
  | c :: r, acc =>
    if c = sep then acc.reverse :: splitCharAux sep r []
    else splitCharAux sep r (c :: acc)

/-- `String.prototype.split` with a one-character separator. -/
def splitChar (sep : Char) (s : Str) : List Str := splitCharAux sep s []

/-- Index of the first occurrence of `pat` in `s` (`String.prototype.indexOf`,
`none` for `-1`). -/
def firstOccur (pat : Str) : Str → Option Nat
  | [] => if pat = [] then some 0 else none
  | c :: r =>
    if pat.isPrefixOf (c :: r) then some 0
    else (firstOccur pat r).map (· + 1)

/-- `s.includes(pat)` is `hasSub pat s`. -/
def hasSub (pat s : Str) : Bool := (firstOccur pat s).isSome

/-- `s.replace(/^P/, '')` for a literal prefix pattern `P`: one anchored
removal. -/
def stripOnce (p s : Str) : Str := if p.isPrefixOf s then s.drop p.length else s

/-- Index of the last `'/'` in a list, if any. -/
def lastSlashIdx : Str → Option Nat
  | [] => none
  | c :: r =>
    match lastSlashIdx r with
    | some i => some (i + 1)
    | none => if c = '/' then some 0 else none

/-- `s.replace(/^.*\//, '')`: `.*` is greedy and does not cross line
terminators, so this removes everything up to and including the last `'/'`
occurring in the longest line-terminator-free prefix. -/
def basenameJs (s : Str) : Str :=
  match lastSlashIdx (s.takeWhile isDotChar) with
  | some i => s.drop (i + 1)
  | none => s

/-- `s.replace(/\.js$/, '')`. -/
def stripJsExt (s : Str) : Str :=
  if (".js".toList).isSuffixOf s then s.take (s.length - 3) else s

/-- The matcher's `normalize`: strip the `~/scripts/` alias, keep the
basename, drop a trailing `.js`, lower-case. -/
def normalizeName (name : Str) : Str :=
  (stripJsExt (basenameJs (stripOnce ("~/scripts/".toList) name))).map Char.toLower

/-- `source.split('/').pop() || ''`. -/
def lastSegment (s : Str) : Str := (splitChar '/' s).getLastD []

/-- Truthiness of a nullable JavaScript string (`null` and `""` are falsy). -/
def truthyS : Option Str → Bool
  | some s => s ≠ []
  | none => false

/-- `a || b` on nullable strings. -/
def jsOrS (a b : Option Str) : Option Str := if truthyS a then a else b

/-- A stack frame parsed from the error text (`StackFrame` in `types.ts`). -/
structure StackFrame where
  filename : Str
  function : Option Str
  line : Int
  column : Int
deriving DecidableEq

/-- The original position carried by a source-map mapping segment that has a
source (4- or 5-field VLQ segments always carry source, original line and
original column; `name` is optional).  `line` is 1-based, `column` 0-based,
as delivered by `originalPositionFor`. -/
structure OrigInfo where
  source : Str
  line : Int
  column : Int
  name : Option Str
deriving DecidableEq

/-- One decoded mapping: a generated position, plus the original position
info for segments that carry a source (`none` for 1-field segments, for
which `originalPositionFor` reports a null source). -/
structure Mapping where
  genLine : Int
  genCol : Int
  info : Option OrigInfo
deriving DecidableEq

/-- Decoded sourcemap JSON (`file` may be absent; `map.content.file || ''`
treats absent and empty alike). -/
structure SourceMapContent where
  file : Option Str
  sources : List Str
  mappings : List Mapping
deriving DecidableEq

/-- An uploaded document (`SourceMapFile` in `types.ts`); `content` is the
parsed JSON, possibly null. -/
structure SourceMapFile where
  name : Str
  content : Option SourceMapContent
deriving DecidableEq

/-- A resolved frame (`ParsedStackFrame` in `types.ts`, first variant). -/
structure ParsedStackFrame where
  functionName : Str
  source : Str
  originalSource : Str
  originalLine : Option Int
  originalColumn : Option Int
  line : Int
  column : Int
  hasMapping : Bool
deriving DecidableEq

/-- The checks `findMatchingSourceMap` runs against one document's content,
in source order: normalized compiled-file name (equality or containment in
either direction), normalized source entries (same), raw compiled-file name
containing the normalized target, and the raw-source checks
`source.includes(targetFile) || filename.includes(source.split('/').pop() || '')`. -/
def docRuleMatch (targetFile rawFilename : Str) (c : SourceMapContent) : Bool :=
  let mapFile := c.file.getD []
  (decide (mapFile ≠ []) &&
    (decide (normalizeName mapFile = targetFile) ||
     hasSub targetFile (normalizeName mapFile) ||
     hasSub (normalizeName mapFile) targetFile)) ||
  (c.sources.any fun s =>
    decide (normalizeName s = targetFile) ||
    hasSub targetFile (normalizeName s) ||
    hasSub (normalizeName s) targetFile) ||
  (decide (mapFile ≠ []) && hasSub targetFile mapFile) ||
  (c.sources.any fun s =>
    hasSub targetFile s || hasSub (lastSegment s) rawFilename)

/-- `findMatchingSourceMap` (first variant of `sourcemapParser.ts`): iterate
the uploaded documents in order, skip documents without content, and return
the first whose content passes any check. -/
def findMatchingSourceMap (filename : Str) (sourceMaps : List SourceMapFile) :
    Option SourceMapFile :=
  if filename = [] ∨ sourceMaps = [] then none
  else
    let targetFile := normalizeName filename
    sourceMaps.find? fun m =>
      match m.content with
      | none => false
      | some c => docRuleMatch targetFile filename c

/-- The `while (normalized.startsWith('../'))` loop of `formatPathForCopy`,
with the list length as fuel (each iteration removes three characters). -/
def dropDotDotAux : Nat → Str → Str
  | 0, s => s
  | n + 1, s =>
    if ("../".toList).isPrefixOf s then dropDotDotAux n (s.drop 3) else s

/-- Strip every remaining leading `../`. -/
def dropDotDot (s : Str) : Str := dropDotDotAux s.length s

/-- `formatPathForCopy` from `App.tsx`: strip relative markers and the
script alias, then anchor the result at the first `/src/` (or `src/`)
segment, else just ensure a leading slash. -/
def formatPathForCopy (path : Str) : Str :=
  if path = [] then []
  else
    let n1 := stripOnce ("../../".toList) path
    let n2 := stripOnce ("../".toList) n1
    let n3 := stripOnce ("./".toList) n2
    let n4 := stripOnce ("~/scripts/".toList) n3
    let n5 := dropDotDot n4
    match firstOccur ("/src/".toList) n5 with
    | some i => n5.drop i
    | none =>
      match firstOccur ("src/".toList) n5 with
      | some j => '/' :: n5.drop j
      | none => if n5.head? = some '/' then n5 else '/' :: n5

/-- A decoded consumer, as the spec's narrow interface
`query(index, line, column) -> optional position`. -/
abbrev QueryFun := Int → Int → Option OrigInfo

/-- `originalPositionFor` of the `source-map` library with the default
`GREATEST_LOWER_BOUND` bias: the mapping with the greatest generated column
not exceeding the query, on the queried generated line; `none` when that
line has no such mapping.  A found 1-field segment (no source) yields the
all-null result, i.e. `none` after `bind`. -/
def consumerQuery (mappings : List Mapping) : QueryFun := fun line col =>
  let cand := mappings.filter fun m =>
    decide (m.genLine = line) && decide (m.genCol ≤ col)
  (cand.foldl (fun acc m =>
    match acc with
    | none => some m
    | some b => if b.genCol ≤ m.genCol then some m else some b) none).bind
    (·.info)

/-- The decode step `SourceMapConsumer.with` applied to a document's parsed
content, yielding the consumer's query function. -/
def consumerDecode (c : SourceMapContent) : Option QueryFun :=
  some (consumerQuery c.mappings)

/-- The `tryColumns` array built by `parseSourceMap` from the 0-based query
column, in push order: `queryColumn`; `0` (if positive); `queryColumn−1` (if
`> 1`); `queryColumn−2` (if `> 2`); `queryColumn+1`; `queryColumn+2`. -/
def candList (c : Int) : List Int :=
  [c] ++ (if 0 < c then [0] else []) ++ (if 1 < c then [c - 1] else []) ++
    (if 2 < c then [c - 2] else []) ++ [c + 1, c + 2]

/-- `[...new Set(tryColumns)]`: deduplication keeping first occurrences. -/
def dedupFirst (seen : List Int) : List Int → List Int
  | [] => []
  | x :: xs =>
    if x ∈ seen then dedupFirst seen xs else x :: dedupFirst (x :: seen) xs

/-- Stable insertion of `x` after all entries whose distance from `c` is not
larger. -/
def insertByDist (c x : Int) : List Int → List Int
  | [] => [x]
  | y :: ys =>
    if (y - c).natAbs ≤ (x - c).natAbs then y :: insertByDist c x ys
    else x :: y :: ys

/-- `Array.prototype.sort` with comparator `|a−c| − |b−c|`; the ECMAScript
sort is stable, which this left-to-right insertion sort reproduces. -/
def sortByDist (c : Int) (l : List Int) : List Int :=
  l.foldl (fun acc x => insertByDist c x acc) []

/-- `uniqueColumns`: the deduplicated candidate list sorted by distance from
the query column. -/
def uniqueColumns (c : Int) : List Int := sortByDist c (dedupFirst [] (candList c))

/-- The candidate loop: skip negative columns, query each column in turn,
accept the first result whose source is truthy. -/
def firstHit (q : QueryFun) (line : Int) : List Int → Option OrigInfo
  | [] => none
  | c :: cs =>
    if c < 0 then firstHit q line cs
    else
      match q line c with
      | some pos => if pos.source ≠ [] then some pos else firstHit q line cs
      | none => firstHit q line cs

/-- The full position search of `parseSourceMap`: the candidate loop, then
the last-resort query at column `0`. -/
def resolvePosition (q : QueryFun) (queryLine queryColumn : Int) : Option OrigInfo :=
  match firstHit q queryLine (uniqueColumns queryColumn) with
  | some pos => some pos
  | none =>
    match q queryLine 0 with
    | some pos => if pos.source ≠ [] then some pos else none
    | none => none

/-- The position search with the last-resort block removed (for the
redundancy claim). -/
def resolvePositionNoLastResort (q : QueryFun) (queryLine queryColumn : Int) :
    Option OrigInfo :=
  firstHit q queryLine (uniqueColumns queryColumn)

/-- `'(anonymous)'`. -/
def anonName : Str := "(anonymous)".toList

/-- The `ParsedStackFrame` pushed when a mapping was found: original line
as-is (already 1-based), original column converted from 0-based to 1-based. -/
def mkMapped (frame : StackFrame) (pos : OrigInfo) : ParsedStackFrame :=
  { functionName := (jsOrS (jsOrS frame.function pos.name) (some anonName)).getD anonName
    source := pos.source
    originalSource := frame.filename
    originalLine := some pos.line
    originalColumn := some (pos.column + 1)
    line := frame.line
    column := frame.column
    hasMapping := true }

/-- The `ParsedStackFrame` pushed when no document matched, no mapping was
found, or an error was caught for this frame: the compiled location is kept. -/
def fallbackFrame (frame : StackFrame) : ParsedStackFrame :=
  { functionName := (jsOrS frame.function (some anonName)).getD anonName
    source := frame.filename
    originalSource := frame.filename
    originalLine := none
    originalColumn := none
    line := frame.line
    column := frame.column
    hasMapping := false }

/-- Resolution of one frame against a decoded consumer: 1-based query line,
0-based query column, candidate search with last resort. -/
def resolveWith (q : QueryFun) (frame : StackFrame) : ParsedStackFrame :=
  let queryLine := max 1 frame.line
  let queryColumn := max 0 (frame.column - 1)
  match resolvePosition q queryLine queryColumn with
  | some pos => mkMapped frame pos
  | none => fallbackFrame frame

/-- `resolveWith` built on the loop without the last-resort block. -/
def resolveWithNoLastResort (q : QueryFun) (frame : StackFrame) : ParsedStackFrame :=
  let queryLine := max 1 frame.line
  let queryColumn := max 0 (frame.column - 1)
  match resolvePositionNoLastResort q queryLine queryColumn with
  | some pos => mkMapped frame pos
  | none => fallbackFrame frame

/-- Resolution of one frame against its matched document, for a decoder
given as a value-returning parameter.  The `none` branches only make the
function total: the matcher never returns a document without content, and
the shipped decoder (`consumerDecode`) always succeeds.  A real decode
failure produces no value at all — `SourceMapConsumer.with` rejects a
promise that `getConsumer`'s resolve-only wrapper discards, so the `await`
never settles and the per-frame `catch` never runs; `resolveFrameAwait`
below models that behaviour. -/
def resolveWithDoc (decode : SourceMapContent → Option QueryFun)
    (frame : StackFrame) (matchedMap : SourceMapFile) : ParsedStackFrame :=
  match matchedMap.content with
  | none => fallbackFrame frame
  | some c =>
    match decode c with
    | none => fallbackFrame frame
    | some q => resolveWith q frame

/-- One iteration of the frame loop of `parseSourceMap`: match a document,
decode it, resolve.  A missing match yields the fallback frame. -/
def resolveFrame (decode : SourceMapContent → Option QueryFun)
    (maps : List SourceMapFile) (frame : StackFrame) : ParsedStackFrame :=
  match findMatchingSourceMap frame.filename maps with
  | none => fallbackFrame frame
  | some matchedMap => resolveWithDoc decode frame matchedMap

/-- The frame loop of `parseSourceMap`, for runs in which every decode
await settles (all runs of the shipped decoder `consumerDecode`): every
frame yields exactly one result and no branch drops a frame. -/
def parseSourceMapCore (decode : SourceMapContent → Option QueryFun)
    (maps : List SourceMapFile) (frames : List StackFrame) : List ParsedStackFrame :=
  frames.map (resolveFrame decode maps)

/-- Digits matched by the regex class `\d`. -/
def takeDigits (s : Str) : Str := s.takeWhile Char.isDigit

/-- `parseInt` on a nonempty all-digit capture. -/
def digitsVal (d : Str) : Int :=
  Int.ofNat (d.foldl (fun a c => 10 * a + (c.toNat - '0'.toNat)) 0)

/-- Tail matcher for `(\d+):(\d+)$`: the first `\d+` is greedy, a shorter
take would put a digit where the literal `':'` must be. -/
def tailLineColEnd (r : Str) : Option (Str × Str) :=
  let d1 := takeDigits r
  if d1 = [] then none
  else
    match r.drop d1.length with
    | ':' :: r2 =>
      if r2 ≠ [] ∧ r2.all Char.isDigit then some (d1, r2) else none
    | _ => none

/-- Tail matcher for `(\d+):(\d+)` with no end anchor. -/
def tailLineCol (r : Str) : Option (Str × Str) :=
  let d1 := takeDigits r
  if d1 = [] then none
  else
    match r.drop d1.length with
    | ':' :: r2 =>
      let d2 := takeDigits r2
      if d2 = [] then none else some (d1, d2)
    | _ => none

/-- Tail matcher for `(\d+):(\d+)\)`. -/
def tailLineColParen (r : Str) : Option (Str × Str) :=
  let d1 := takeDigits r
  if d1 = [] then none
  else
    match r.drop d1.length with
    | ':' :: r2 =>
      let d2 := takeDigits r2
      if d2 = [] then none
      else
        match r2.drop d2.length with
        | ')' :: _ => some (d1, d2)
        | _ => none
    | _ => none

/-- Lazy scan for `(.+?):(\d+):(\d+)$` (pattern `/^(.+?):(\d+):(\d+)$/`):
the group grows one character at a time; at each `':'` with a nonempty group
the tail is tried, and on failure the `':'` joins the group (it is matched
by `.`). -/
def p3go : Str → Str → Option (Str × Str × Str)
  | _, [] => none
  | acc, c :: r =>
    if c = ':' ∧ acc ≠ [] then
      match tailLineColEnd r with
      | some (d1, d2) => some (acc.reverse, d1, d2)
      | none => if isDotChar c then p3go (c :: acc) r else none
    else if isDotChar c then p3go (c :: acc) r else none

/-- The anchored pattern `/^(.+?):(\d+):(\d+)$/`. -/
def p3match (l : Str) : Option (Str × Str × Str) := p3go [] l

/-- Lazy scan for `(.+?):(\d+):(\d+)` with no end anchor. -/
def p2go : Str → Str → Option (Str × Str × Str)
  | _, [] => none
  | acc, c :: r =>
    if c = ':' ∧ acc ≠ [] then
      match tailLineCol r with
      | some (d1, d2) => some (acc.reverse, d1, d2)
      | none => if isDotChar c then p2go (c :: acc) r else none
    else if isDotChar c then p2go (c :: acc) r else none

/-- Lazy scan for `(.+?):(\d+):(\d+)\)` (the part after `\(` in the first
pattern). -/
def parenGo : Str → Str → Option (Str × Str × Str)
  | _, [] => none
  | acc, c :: r =>
    if c = ':' ∧ acc ≠ [] then
      match tailLineColParen r with
      | some (d1, d2) => some (acc.reverse, d1, d2)
      | none => if isDotChar c then parenGo (c :: acc) r else none
    else if isDotChar c then parenGo (c :: acc) r else none

/-- Length of the maximal whitespace run at the head (what a greedy `\s+`
consumes before backtracking). -/
def wsRun (s : Str) : Nat := (s.takeWhile jsWsB).length

/-- Backtracking over the length of a `\s+` that is followed by a lazy
group: the greedy engine tries the full run first, then shorter nonempty
prefixes (the freed whitespace characters are matched by the `.` of the
group). -/
def tryFromWs (go : Str → Option α) : Nat → Str → Option α
  | 0, _ => none
  | k + 1, r =>
    match go (r.drop (k + 1)) with
    | some x => some x
    | none => tryFromWs go k r

/-- Matcher for `\s+(.+?):(\d+):(\d+)` applied right after a literal `at`. -/
def p2afterAt (r : Str) : Option (Str × Str × Str) :=
  tryFromWs (p2go []) (wsRun r) r

/-- Lazy scan for `(.+?)\s+\((.+?):(\d+):(\d+)\)`: the function-name group
grows one character at a time; at a whitespace boundary the engine commits
`\s+` to the whole run (a shorter run would put whitespace where the literal
`'('` must be) and tries `\(` plus the parenthesised tail, falling back to
growing the group. -/
def p1funcGo : Str → Str → Option (Str × Str × Str × Str)
  | _, [] => none
  | acc, c :: r =>
    let ft : Option (Str × Str × Str × Str) :=
      if isDotChar c then p1funcGo (c :: acc) r else none
    if acc ≠ [] ∧ jsWsB c then
      match (c :: r).drop (wsRun (c :: r)) with
      | '(' :: r3 =>
        match parenGo [] r3 with
        | some (b, d1, d2) => some (acc.reverse, b, d1, d2)
        | none => ft
      | _ => ft
    else ft

/-- Matcher for `\s+(.+?)\s+\((.+?):(\d+):(\d+)\)` applied right after a
literal `at`. -/
def p1afterAt (r : Str) : Option (Str × Str × Str × Str) :=
  tryFromWs (p1funcGo []) (wsRun r) r

/-- Leftmost-match scan of an unanchored pattern beginning with the literal
`at`: try every occurrence of `at` from the left. -/
def scanAt (f : Str → Option α) : Str → Option α
  | [] => none
  | 'a' :: 't' :: r =>
    (match f r with
     | some x => some x
     | none => scanAt f ('t' :: r))
  | _ :: r => scanAt f r

/-- The per-line pattern cascade of `parseTextStack` (first TS variant):
`/at\s+(.+?)\s+\((.+?):(\d+):(\d+)\)/` (5 match entries: function name and
file), then `/at\s+(.+?):(\d+):(\d+)/`, then `/^(.+?):(\d+):(\d+)$/` (4
entries: file only).  First matching pattern wins. -/
def parseTextLine (t : Str) : Option StackFrame :=
  match scanAt p1afterAt t with
  | some (fn, file, d1, d2) => some ⟨file, some fn, digitsVal d1, digitsVal d2⟩
  | none =>
    match scanAt p2afterAt t with
    | some (file, d1, d2) => some ⟨file, none, digitsVal d1, digitsVal d2⟩
    | none =>
      match p3match t with
      | some (file, d1, d2) => some ⟨file, none, digitsVal d1, digitsVal d2⟩
      | none => none

/-- `parseTextStack`: split on `'\n'`, trim each line, skip blank and
non-matching lines, `null` when nothing matched. -/
def parseTextStack (s : Str) : Option (List StackFrame) :=
  let results := (splitChar '\n' s).filterMap fun line =>
    let t := jsTrim line
    if t = [] then none else parseTextLine t
  if results = [] then none else some results

/-- Parsed JSON values as produced by `JSON.parse`.  Numbers are modelled as
integers (the stack-trace payloads carry integral line/column numbers);
duplicate object keys follow `JSON.parse`, last one wins. -/
inductive Json where
  | null : Json
  | bool (b : Bool) : Json
  | num (n : Int) : Json
  | str (s : Str) : Json
  | arr (items : List Json) : Json
  | obj (fields : List (Str × Json)) : Json

/-- JavaScript truthiness of a parsed JSON value (`undefined` behaves like
`null` here). -/
def truthy : Json → Bool
  | .null => false
  | .bool b => b
  | .num n => n ≠ 0
  | .str s => s ≠ []
  | .arr _ => true
  | .obj _ => true

/-- Property access `j[k]` on a parsed JSON value: `undefined` (modelled as
`null`) off objects and for absent keys; duplicate keys resolve to the last
occurrence. -/
def jsonFieldGet (j : Json) (k : Str) : Json :=
  match j with
  | .obj fs =>
    match fs.reverse.find? (fun f => decide (f.1 = k)) with
    | some f => f.2
    | none => .null
  | _ => .null

/-- `a || b` on parsed JSON values. -/
def jsOrJ (a b : Json) : Json := if truthy a then a else b

/-- JavaScript `x > 0` on the JSON values the stack payloads carry (numbers,
booleans, numeric strings; anything else compares false). -/
def jsGtZero : Json → Bool
  | .num n => 0 < n
  | .bool b => b
  | .str s =>
    let t := jsTrim s
    t ≠ [] ∧ t.all Char.isDigit ∧ 0 < digitsVal t
  | _ => false

/-- Coercion of a JSON field to the string slot of a `StackFrame` (a
non-string value cannot be used as a path downstream: the matcher's string
methods throw on it and the frame falls back, which coincides with the
behaviour of the empty name). -/
def jsToStr : Json → Str
  | .str s => s
  | _ => []

/-- Coercion of a JSON field to the nullable function-name slot. -/
def jsToFunc : Json → Option Str
  | .str s => some s
  | _ => none

/-- Coercion of a JSON field to a numeric slot (`ToNumber` on the payload
fragment: numbers, booleans, numeric strings). -/
def jsToInt : Json → Int
  | .num n => n
  | .bool b => if b then 1 else 0
  | .str s =>
    let t := jsTrim s
    if t ≠ [] ∧ t.all Char.isDigit then digitsVal t else 0
  | _ => 0

/-- The frame object built by `parseJSONStack` for one entry. -/
def mkJsonFrame (j : Json) : StackFrame :=
  { filename := jsToStr (jsOrJ (jsonFieldGet j ("filename".toList))
      (jsOrJ (jsonFieldGet j ("source".toList)) (.str [])))
    function := jsToFunc (jsOrJ (jsonFieldGet j ("function".toList))
      (jsOrJ (jsonFieldGet j ("functionName".toList)) .null))
    line := jsToInt (jsOrJ (jsonFieldGet j ("lineno".toList))
      (jsOrJ (jsonFieldGet j ("line".toList)) (.num 0)))
    column := jsToInt (jsOrJ (jsonFieldGet j ("colno".toList))
      (jsOrJ (jsonFieldGet j ("column".toList)) (.num 0))) }

/-- One array entry of the JSON dialect: the raw `filename` and `line`
values (for the `filter` predicate, which runs on the raw truthiness) and
the built frame.  `none` models the `TypeError` thrown by property access on
a `null` entry, which the surrounding `try` turns into a failure of the
whole JSON dialect. -/
def itemRaw (j : Json) : Option (Json × Json × StackFrame) :=
  match j with
  | .null => none
  | _ =>
    some (jsOrJ (jsonFieldGet j ("filename".toList))
        (jsOrJ (jsonFieldGet j ("source".toList)) (.str [])),
      jsOrJ (jsonFieldGet j ("lineno".toList))
        (jsOrJ (jsonFieldGet j ("line".toList)) (.num 0)),
      mkJsonFrame j)

/-- `itemRaw` over a whole array; any throwing entry fails the dialect. -/
def itemsRaw : List Json → Option (List (Json × Json × StackFrame))
  | [] => some []
  | j :: js =>
    match itemRaw j with
    | none => none
    | some x =>
      match itemsRaw js with
      | none => none
      | some xs => some (x :: xs)

/-- `parseJSONStack`: only inputs whose trimmed text starts with `'['` or
`'\x7b'` are considered; an array maps every entry and then filters on
truthy filename and positive line (an empty array result is still an array,
hence returned); a single object needs a truthy `filename` and a truthy
`lineno` or `line`; anything else, or a `JSON.parse` exception, yields
`null`. -/
def parseJSONStack (jp : Str → Option Json) (errorInfo : Str) :
    Option (List StackFrame) :=
  let trimmed := jsTrim errorInfo
  if ¬(['['].isPrefixOf trimmed ∨ [Char.ofNat 0x7B].isPrefixOf trimmed) then none
  else
    match jp trimmed with
    | none => none
    | some (.arr items) =>
      match itemsRaw items with
      | none => none
      | some xs =>
        some ((xs.filter fun x => truthy x.1 && jsGtZero x.2.1).map (·.2.2))
    | some .null => none
    | some parsed =>
      if truthy (jsonFieldGet parsed ("filename".toList)) ∧
          (truthy (jsonFieldGet parsed ("lineno".toList)) ∨
           truthy (jsonFieldGet parsed ("line".toList))) then
        some [mkJsonFrame parsed]
      else none

/-- The dialect cascade of `parseSourceMap`: the text dialect is consulted
only when the JSON dialect returned `null` (an empty array from the JSON
dialect is truthy and is kept). -/
def stackFramesFor (jp : Str → Option Json) (errorInfo : Str) :
    Option (List StackFrame) :=
  match parseJSONStack jp errorInfo with
  | some fs => some fs
  | none => parseTextStack errorInfo

/-- The input errors `parseSourceMap` throws. -/
inductive ParseError where
  | noSourceMaps : ParseError
  | emptyErrorInfo : ParseError
  | unparseableStack : ParseError
  | noResults : ParseError
deriving DecidableEq

/-- `parseSourceMap` (first TS variant): input checks, dialect cascade,
frame loop, final emptiness check. -/
def parseSourceMap (jp : Str → Option Json)
    (decode : SourceMapContent → Option QueryFun)
    (sourceMaps : List SourceMapFile) (errorInfo : Str) :
    Except ParseError (List ParsedStackFrame) :=
  if sourceMaps = [] then .error .noSourceMaps
  else if jsTrim errorInfo = [] then .error .emptyErrorInfo
  else
    match stackFramesFor jp errorInfo with
    | none => .error .unparseableStack
    | some [] => .error .unparseableStack
    | some frames =>
      let results := parseSourceMapCore decode sourceMaps frames
      if results = [] then .error .noResults else .ok results

lemma isPrefixOf_cons_iff {a : Char} {as s : Str} :
    (a :: as).isPrefixOf s = true ↔ ∃ t, s = a :: t ∧ as.isPrefixOf t = true := by
  cases s with
  | nil => simp [List.isPrefixOf]
  | cons b bs =>
    simp only [List.isPrefixOf, Bool.and_eq_true, beq_iff_eq, List.cons.injEq]
    constructor
    · rintro ⟨h1, h2⟩
      exact ⟨bs, ⟨h1.symm, rfl⟩, h2⟩
    · rintro ⟨t, ⟨h1, h2⟩, h3⟩
      subst h1; subst h2; exact ⟨rfl, h3⟩

lemma firstOccur_of_isPrefixOf {pat s : Str} (h : pat.isPrefixOf s = true) :
    firstOccur pat s = some 0 := by
  cases s with
  | nil =>
    cases pat with
    | nil => simp [firstOccur]
    | cons c r => simp [List.isPrefixOf] at h
  | cons c r => simp [firstOccur, h]

lemma firstOccur_drop {pat s : Str} {i : Nat} (h : firstOccur pat s = some i) :
    pat.isPrefixOf (s.drop i) = true := by
  induction s generalizing i with
  | nil =>
    by_cases hp : pat = [] <;> simp [firstOccur, hp] at h
    subst hp; subst h; simp [List.isPrefixOf]
  | cons c r ih =>
    by_cases hp : pat.isPrefixOf (c :: r) = true
    · simp [firstOccur, hp] at h
      subst h; simpa using hp
    · simp [firstOccur, hp] at h
      obtain ⟨j, hj, hji⟩ := h
      subst hji
      simpa using ih hj

lemma firstOccur_cons_none {pat : Str} {c : Char} {r : Str} :
    firstOccur pat (c :: r) = none ↔
      ¬ pat.isPrefixOf (c :: r) = true ∧ firstOccur pat r = none := by
  by_cases hp : pat.isPrefixOf (c :: r) = true <;> simp [firstOccur, hp]

lemma firstOccur_slash_src_none {s : Str} (h : firstOccur ("src/".toList) s = none) :
    firstOccur ("/src/".toList) s = none := by
  induction s with
  | nil => decide
  | cons c r ih =>
    rw [firstOccur_cons_none] at h ⊢
    refine ⟨?_, ih h.2⟩
    intro hp
    obtain ⟨t, ht, hpre⟩ := isPrefixOf_cons_iff.mp hp
    injection ht with hc1 hc2
    subst hc2
    have h0 : firstOccur ("src/".toList) r = some 0 := firstOccur_of_isPrefixOf hpre
    rw [h0] at h
    exact absurd h.2 (by simp)

lemma isPrefixOf_false_of_head_ne {x c : Char} {xs t : Str} (h : ¬ x = c) :
    (x :: xs).isPrefixOf (c :: t) = false := by
  simp [List.isPrefixOf, h]

lemma dropDotDotAux_no {n : Nat} {s : Str} (h : ¬ ("../".toList).isPrefixOf s = true) :
    dropDotDotAux n s = s := by
  cases n with
  | zero => rfl
  | succ m => simp only [dropDotDotAux]; rw [if_neg h]

lemma dropDotDot_slash (t : Str) : dropDotDot ('/' :: t) = '/' :: t := by
  apply dropDotDotAux_no
  intro hh
  obtain ⟨u, hu, _⟩ := isPrefixOf_cons_iff.mp hh
  injection hu with hc _
  exact absurd hc (by decide)

/-- The `src`-anchoring tail of `formatPathForCopy` (proof-structuring
helper; `formatPathForCopy` itself is the faithful definition). -/
def anchorStep (m : Str) : Str :=
  match firstOccur ("/src/".toList) m with
  | some i => m.drop i
  | none =>
    match firstOccur ("src/".toList) m with
    | some j => '/' :: m.drop j
    | none => if m.head? = some '/' then m else '/' :: m

lemma formatPath_eval {p : Str} (hp : ¬ p = []) :
    formatPathForCopy p = anchorStep (dropDotDot (stripOnce ("~/scripts/".toList)
      (stripOnce ("./".toList) (stripOnce ("../".toList)
        (stripOnce ("../../".toList) p))))) := by
  unfold formatPathForCopy anchorStep
  rw [if_neg hp]

/-- On a slash-headed input the marker-stripping steps of
`formatPathForCopy` are all idle. -/
lemma formatPath_slash_eval (t : Str) :
    formatPathForCopy ('/' :: t) = anchorStep ('/' :: t) := by
  have e1 : (("../../".toList)).isPrefixOf ('/' :: t) = false :=
    isPrefixOf_false_of_head_ne (by decide)
  have e2 : (("../".toList)).isPrefixOf ('/' :: t) = false :=
    isPrefixOf_false_of_head_ne (by decide)
  have e3 : (("./".toList)).isPrefixOf ('/' :: t) = false :=
    isPrefixOf_false_of_head_ne (by decide)
  have e4 : (("~/scripts/".toList)).isPrefixOf ('/' :: t) = false :=
    isPrefixOf_false_of_head_ne (by decide)
  rw [formatPath_eval (List.cons_ne_nil _ _)]
  simp only [stripOnce, e1, e2, e3, e4, Bool.false_eq_true, if_false,
    dropDotDot_slash]

/-- The shapes `formatPathForCopy` can output: empty, anchored at `/src/`,
or slash-headed with no `src/` occurrence at all. -/
def OutShape (o : Str) : Prop :=
  o = [] ∨ ("/src/".toList).isPrefixOf o = true ∨
    (o.head? = some '/' ∧ hasSub ("src/".toList) o = false)

lemma anchorStep_shape (m : Str) : OutShape (anchorStep m) := by
  unfold anchorStep
  cases h1 : firstOccur ("/src/".toList) m with
  | some i =>
    exact Or.inr (Or.inl (firstOccur_drop h1))
  | none =>
    cases h2 : firstOccur ("src/".toList) m with
    | some j =>
      refine Or.inr (Or.inl ?_)
      exact isPrefixOf_cons_iff.mpr ⟨m.drop j, rfl, firstOccur_drop h2⟩
    | none =>
      by_cases h3 : m.head? = some '/'
      · rw [if_pos h3]
        refine Or.inr (Or.inr ⟨h3, ?_⟩)
        unfold hasSub
        rw [h2]
        rfl
      · rw [if_neg h3]
        refine Or.inr (Or.inr ⟨rfl, ?_⟩)
        unfold hasSub
        rw [firstOccur_cons_none.mpr ⟨?_, h2⟩]
        · rfl
        · intro hh
          obtain ⟨t, ht, _⟩ := isPrefixOf_cons_iff.mp hh
          injection ht with hc _
          exact absurd hc (by decide)

lemma formatPath_shape (p : Str) : OutShape (formatPathForCopy p) := by
  by_cases hp : p = []
  · left
    simp [hp, formatPathForCopy]
  · rw [formatPath_eval hp]
    exact anchorStep_shape _

lemma formatPath_fix {o : Str} (h : OutShape o) : formatPathForCopy o = o := by
  rcases h with h | h | ⟨h1, h2⟩
  · simp [h, formatPathForCopy]
  · obtain ⟨t, ht, _⟩ := isPrefixOf_cons_iff.mp h
    subst ht
    rw [formatPath_slash_eval]
    unfold anchorStep
    rw [firstOccur_of_isPrefixOf h]
    simp
  · obtain ⟨t, ht⟩ : ∃ t, o = '/' :: t := by
      cases o with
      | nil => simp at h1
      | cons c r =>
        simp only [List.head?_cons, Option.some.injEq] at h1
        exact ⟨r, by rw [h1]⟩
    subst ht
    have h3 : firstOccur ("src/".toList) ('/' :: t) = none := by
      cases hx : firstOccur ("src/".toList) ('/' :: t) with
      | none => rfl
      | some v => unfold hasSub at h2; rw [hx] at h2; simp at h2
    have h4 := firstOccur_slash_src_none h3
    rw [formatPath_slash_eval]
    unfold anchorStep
    rw [h4, h3]
    simp

/-- Claim C9: the path normalizer `formatPathForCopy` of `App.tsx` is
idempotent: normalizing a path twice equals normalizing it once. -/
theorem claim_c9_formatPathForCopy_idempotent (path : Str) :
    formatPathForCopy (formatPathForCopy path) = formatPathForCopy path :=
  formatPath_fix (formatPath_shape path)

lemma mem_insertByDist {c x y : Int} {l : List Int} :
    y ∈ insertByDist c x l ↔ y = x ∨ y ∈ l := by
  induction l with
  | nil => simp [insertByDist]
  | cons a as ih =>
    unfold insertByDist
    by_cases h : (a - c).natAbs ≤ (x - c).natAbs
    · rw [if_pos h]
      simp only [List.mem_cons, ih]
      tauto
    · rw [if_neg h]
      simp only [List.mem_cons]

lemma mem_foldl_insertByDist {c y : Int} {l acc : List Int} :
    y ∈ l.foldl (fun a x => insertByDist c x a) acc ↔ y ∈ acc ∨ y ∈ l := by
  induction l generalizing acc with
  | nil => simp
  | cons a as ih =>
    simp only [List.foldl_cons, ih, mem_insertByDist, List.mem_cons]
    tauto

lemma mem_sortByDist {c y : Int} {l : List Int} :
    y ∈ sortByDist c l ↔ y ∈ l := by
  unfold sortByDist
  rw [mem_foldl_insertByDist]
  simp

lemma mem_dedupFirst {y : Int} {seen l : List Int} :
    y ∈ dedupFirst seen l ↔ y ∈ l ∧ y ∉ seen := by
  induction l generalizing seen with
  | nil => simp [dedupFirst]
  | cons x xs ih =>
    by_cases hx : x ∈ seen
    · rw [dedupFirst, if_pos hx, ih]
      simp only [List.mem_cons]
      constructor
      · rintro ⟨h1, h2⟩
        exact ⟨Or.inr h1, h2⟩
      · rintro ⟨h1 | h1, h2⟩
        · subst h1; exact absurd hx h2
        · exact ⟨h1, h2⟩
    · rw [dedupFirst, if_neg hx]
      simp only [List.mem_cons, ih]
      constructor
      · rintro (h1 | ⟨h1, h2⟩)
        · subst h1; exact ⟨Or.inl rfl, hx⟩
        · exact ⟨Or.inr h1, fun hy => h2 (Or.inr hy)⟩
      · rintro ⟨h1 | h1, h2⟩
        · exact Or.inl h1
        · by_cases hxy : y = x
          · exact Or.inl hxy
          · exact Or.inr ⟨h1, by simp [hxy, h2]⟩

/-- The candidate list exactly as the claim words it: `col0−1` and `col0−2`
guarded by non-negativity instead of the code's `> 1` / `> 2` guards. -/
def specCandList (c : Int) : List Int :=
  [c] ++ (if 0 < c then [0] else []) ++ (if 0 ≤ c - 1 then [c - 1] else []) ++
    (if 0 ≤ c - 2 then [c - 2] else []) ++ [c + 1, c + 2]

/-- The claim's candidate sequence: the deduplicated spec list, stably
sorted by distance from `col0`. -/
def claimCandidates (c : Int) : List Int := sortByDist c (dedupFirst [] (specCandList c))

/-- The claim's candidate set, as a predicate. -/
def claimCandSet (c x : Int) : Prop :=
  x = c ∨ (0 < c ∧ x = 0) ∨ (x = c - 1 ∧ 0 ≤ c - 1) ∨ (x = c - 2 ∧ 0 ≤ c - 2) ∨
    x = c + 1 ∨ x = c + 2

lemma candList_eq_spec {c : Int} (hc : 0 ≤ c) :
    dedupFirst [] (candList c) = dedupFirst [] (specCandList c) := by
  have hcase : c = 0 ∨ c = 1 ∨ c = 2 ∨ 3 ≤ c := by omega
  rcases hcase with h | h | h | h
  · subst h; decide
  · subst h; decide
  · subst h; decide
  · have h0 : 0 < c := by omega
    have h1 : 1 < c := by omega
    have h2 : 2 < c := by omega
    have h1' : 0 ≤ c - 1 := by omega
    have h2' : 0 ≤ c - 2 := by omega
    simp only [candList, specCandList, if_pos h0, if_pos h1, if_pos h2,
      if_pos h1', if_pos h2']

/-- Claim C4: for every compiled column, with `col0 = max(0, column−1)`, the
candidate columns the resolver tries (before the last resort) are exactly
the claim's deduplicated set, in ascending distance from `col0` with ties in
the listed insertion order. -/
theorem claim_c4_candidate_columns (column : Int) :
    uniqueColumns (max 0 (column - 1)) = claimCandidates (max 0 (column - 1)) ∧
    ∀ x, x ∈ uniqueColumns (max 0 (column - 1)) ↔ claimCandSet (max 0 (column - 1)) x := by
  set c := max 0 (column - 1) with hcdef
  have hc : (0 : Int) ≤ c := le_max_left _ _
  constructor
  · unfold uniqueColumns claimCandidates
    rw [candList_eq_spec hc]
  · intro x
    unfold uniqueColumns
    rw [mem_sortByDist, mem_dedupFirst]
    by_cases h0 : (0 : Int) < c <;> by_cases h1 : (1 : Int) < c <;>
      by_cases h2 : (2 : Int) < c <;>
      simp [candList, claimCandSet, h0, h1, h2] <;> omega

lemma zero_mem_uniqueColumns {c : Int} (hc : 0 ≤ c) :
    (0 : Int) ∈ uniqueColumns c := by
  unfold uniqueColumns
  rw [mem_sortByDist, mem_dedupFirst]
  refine ⟨?_, by simp⟩
  by_cases h0 : (0 : Int) < c
  · simp [candList, if_pos h0]
  · have : c = 0 := le_antisymm (not_lt.mp h0) hc
    subst this
    simp [candList]

lemma firstHit_none_reject {q : QueryFun} {line : Int} {cands : List Int}
    (h : firstHit q line cands = none) {c : Int} (hc : c ∈ cands) (hc0 : 0 ≤ c) :
    ∀ pos, q line c = some pos → pos.source = [] := by
  induction cands with
  | nil => simp at hc
  | cons a as ih =>
    by_cases ha : a < 0
    · simp only [firstHit, if_pos ha] at h
      rcases List.mem_cons.mp hc with hca | hca
      · omega
      · exact ih h hca
    · cases hq : q line a with
      | none =>
        simp only [firstHit, if_neg ha, hq] at h
        rcases List.mem_cons.mp hc with hca | hca
        · subst hca
          intro pos hpos
          rw [hpos] at hq
          cases hq
        · exact ih h hca
      | some pos' =>
        by_cases hs : pos'.source = []
        · simp only [firstHit, if_neg ha, hq, hs, ne_eq, not_true_eq_false,
            if_false] at h
          rcases List.mem_cons.mp hc with hca | hca
          · subst hca
            intro pos hpos
            rw [hpos] at hq
            cases hq
            exact hs
          · exact ih h hca
        · simp [firstHit, ha, hq, hs] at h

lemma resolvePosition_eq {q : QueryFun} {l c : Int} (hc : 0 ≤ c) :
    resolvePosition q l c = resolvePositionNoLastResort q l c := by
  unfold resolvePosition resolvePositionNoLastResort
  cases h : firstHit q l (uniqueColumns c) with
  | some pos => rfl
  | none =>
    have hreject := firstHit_none_reject h (zero_mem_uniqueColumns hc) le_rfl
    cases hq : q l 0 with
    | none => simp [hq]
    | some pos => simp [hq, hreject pos hq]

/-- Claim C10: the final last-resort query at column 0 never changes the
result: column 0 is always among the candidates tried, so for every
(deterministic) query function the resolver without the last-resort block
returns the same resolved frame. -/
theorem claim_c10_last_resort_redundant (q : QueryFun) (frame : StackFrame) :
    resolveWithNoLastResort q frame = resolveWith q frame ∧
    (0 : Int) ∈ uniqueColumns (max 0 (frame.column - 1)) := by
  refine ⟨?_, zero_mem_uniqueColumns (le_max_left _ _)⟩
  have he : resolvePosition q (max 1 frame.line) (max 0 (frame.column - 1)) =
      resolvePositionNoLastResort q (max 1 frame.line) (max 0 (frame.column - 1)) :=
    resolvePosition_eq (le_max_left _ _)
  simp only [resolveWith, resolveWithNoLastResort, he]

instance exceptDecEq {ε α : Type} [DecidableEq ε] [DecidableEq α] :
    DecidableEq (Except ε α) := fun a b =>
  match a, b with
  | .error x, .error y =>
    if h : x = y then .isTrue (by rw [h]) else .isFalse (fun hc => h (by injection hc))
  | .error _, .ok _ => .isFalse (fun hc => Except.noConfusion hc)
  | .ok _, .error _ => .isFalse (fun hc => Except.noConfusion hc)
  | .ok x, .ok y =>
    if h : x = y then .isTrue (by rw [h]) else .isFalse (fun hc => h (by injection hc))

lemma resolveWith_shape (q : QueryFun) (frame : StackFrame) :
    resolveWith q frame = fallbackFrame frame ∨
      ∃ pos, resolveWith q frame = mkMapped frame pos := by
  rcases h : resolvePosition q (max 1 frame.line) (max 0 (frame.column - 1)) with _ | pos
  · exact Or.inl (by simp only [resolveWith]; rw [h])
  · exact Or.inr ⟨pos, by simp only [resolveWith]; rw [h]⟩

lemma resolveFrame_eq_miss {decode : SourceMapContent → Option QueryFun}
    {maps : List SourceMapFile} {frame : StackFrame}
    (h : findMatchingSourceMap frame.filename maps = none) :
    resolveFrame decode maps frame = fallbackFrame frame := by
  unfold resolveFrame
  rw [h]

lemma resolveFrame_eq_doc {decode : SourceMapContent → Option QueryFun}
    {maps : List SourceMapFile} {frame : StackFrame} {doc : SourceMapFile}
    (h : findMatchingSourceMap frame.filename maps = some doc) :
    resolveFrame decode maps frame = resolveWithDoc decode frame doc := by
  unfold resolveFrame
  rw [h]

lemma resolveWithDoc_shape (decode : SourceMapContent → Option QueryFun)
    (frame : StackFrame) (doc : SourceMapFile) :
    resolveWithDoc decode frame doc = fallbackFrame frame ∨
      ∃ pos, resolveWithDoc decode frame doc = mkMapped frame pos := by
  unfold resolveWithDoc
  rcases h2 : doc.content with _ | c
  · exact Or.inl rfl
  · show (match decode c with
        | none => fallbackFrame frame
        | some q => resolveWith q frame) = fallbackFrame frame ∨
      ∃ pos, (match decode c with
        | none => fallbackFrame frame
        | some q => resolveWith q frame) = mkMapped frame pos
    rcases h3 : decode c with _ | q
    · exact Or.inl rfl
    · exact resolveWith_shape q frame

lemma resolveFrame_shape (decode : SourceMapContent → Option QueryFun)
    (maps : List SourceMapFile) (frame : StackFrame) :
    resolveFrame decode maps frame = fallbackFrame frame ∨
      ∃ pos, resolveFrame decode maps frame = mkMapped frame pos := by
  rcases h1 : findMatchingSourceMap frame.filename maps with _ | doc
  · exact Or.inl (resolveFrame_eq_miss h1)
  · rw [resolveFrame_eq_doc h1]
    exact resolveWithDoc_shape decode frame doc

lemma resolveFrame_preserves (decode : SourceMapContent → Option QueryFun)
    (maps : List SourceMapFile) (frame : StackFrame) :
    (resolveFrame decode maps frame).line = frame.line ∧
      (resolveFrame decode maps frame).column = frame.column := by
  rcases resolveFrame_shape decode maps frame with h | ⟨pos, h⟩ <;>
    rw [h] <;> exact ⟨rfl, rfl⟩

/-- Claim C3: every frame the pipeline's frame loop produces satisfies
`hasMapping == (originalLine != null)`, and `originalColumn` is null exactly
for the unmapped frames. -/
theorem claim_c3_hasMapping_invariant (decode : SourceMapContent → Option QueryFun)
    (maps : List SourceMapFile) (frames : List StackFrame) (r : ParsedStackFrame)
    (h : r ∈ parseSourceMapCore decode maps frames) :
    (r.hasMapping = true ↔ r.originalLine ≠ none) ∧
      (r.originalColumn = none ↔ r.hasMapping = false) := by
  obtain ⟨f, _, hr⟩ := List.mem_map.mp h
  rcases resolveFrame_shape decode maps f with h1 | ⟨pos, h1⟩ <;>
    rw [← hr, h1] <;> simp [fallbackFrame, mkMapped]

/-- Sample data for the witnesses: one document whose single mapping sits at
generated line 1, column 0, pointing at `src/app.ts:10:4`. -/
def sampleInfo : OrigInfo := ⟨"src/app.ts".toList, 10, 4, none⟩

def sampleMapping : Mapping := ⟨1, 0, some sampleInfo⟩

def sampleContent : SourceMapContent := ⟨some ("app.js".toList), [], [sampleMapping]⟩

def sampleDoc : SourceMapFile := ⟨"app.js.map".toList, some sampleContent⟩

def sampleFrame : StackFrame := ⟨"app.js".toList, none, 1, 50⟩

/-- A model of `JSON.parse` for inputs that are not JSON at all. -/
def jpNone : Str → Option Json := fun _ => none

theorem claim_c3_witness :
    resolveFrame consumerDecode [sampleDoc] sampleFrame ∈
        parseSourceMapCore consumerDecode [sampleDoc] [sampleFrame] ∧
      (((resolveFrame consumerDecode [sampleDoc] sampleFrame).hasMapping = true ↔
          (resolveFrame consumerDecode [sampleDoc] sampleFrame).originalLine ≠ none) ∧
        ((resolveFrame consumerDecode [sampleDoc] sampleFrame).originalColumn = none ↔
          (resolveFrame consumerDecode [sampleDoc] sampleFrame).hasMapping = false)) :=
  ⟨by simp [parseSourceMapCore],
    claim_c3_hasMapping_invariant consumerDecode [sampleDoc] [sampleFrame] _
      (by simp [parseSourceMapCore])⟩

/-- Claim C6: a successful `parseSourceMap` call returns exactly one
resolved frame per parsed stack frame, in input order; a frame with no
matching document is kept as a fallback frame carrying its compiled line
and column unchanged. -/
theorem claim_c6_one_output_per_frame (jp : Str → Option Json)
    (decode : SourceMapContent → Option QueryFun) (maps : List SourceMapFile)
    (errorInfo : Str) (res : List ParsedStackFrame)
    (h : parseSourceMap jp decode maps errorInfo = .ok res) :
    ∃ frames, stackFramesFor jp errorInfo = some frames ∧
      res = parseSourceMapCore decode maps frames ∧
      res.length = frames.length ∧
      ∀ i (hi : i < frames.length) (hr : i < res.length),
        (res.get ⟨i, hr⟩).line = (frames.get ⟨i, hi⟩).line ∧
        (res.get ⟨i, hr⟩).column = (frames.get ⟨i, hi⟩).column ∧
        (findMatchingSourceMap (frames.get ⟨i, hi⟩).filename maps = none →
          res.get ⟨i, hr⟩ = fallbackFrame (frames.get ⟨i, hi⟩)) := by
  unfold parseSourceMap at h
  by_cases h1 : maps = []
  · simp [h1] at h
  · by_cases h2 : jsTrim errorInfo = []
    · simp [h1, h2] at h
    · cases h3 : stackFramesFor jp errorInfo with
      | none => simp [h1, h2, h3] at h
      | some frames =>
        cases frames with
        | nil => simp [h1, h2, h3] at h
        | cons f fs =>
          simp only [h1, h2, h3, if_neg, if_false] at h
          have hne : parseSourceMapCore decode maps (f :: fs) ≠ [] := by
            simp [parseSourceMapCore]
          rw [if_neg hne] at h
          injection h with hres
          refine ⟨f :: fs, rfl, hres.symm, ?_, ?_⟩
          · rw [← hres]
            simp [parseSourceMapCore]
          · intro i hi hr
            have hget : (res.get ⟨i, hr⟩) =
                resolveFrame decode maps ((f :: fs).get ⟨i, hi⟩) := by
              subst hres
              simp only [parseSourceMapCore, List.get_eq_getElem, List.getElem_map]
            rw [hget]
            refine ⟨(resolveFrame_preserves _ _ _).1,
              (resolveFrame_preserves _ _ _).2, ?_⟩
            intro hmiss
            exact resolveFrame_eq_miss hmiss

theorem claim_c6_witness :
    parseSourceMap jpNone consumerDecode [sampleDoc] ("a.js:1:2".toList) =
        .ok [⟨"(anonymous)".toList, "src/app.ts".toList, "a.js".toList,
          some 10, some 5, 1, 2, true⟩] ∧
      (∃ frames, stackFramesFor jpNone ("a.js:1:2".toList) = some frames ∧
        [(⟨"(anonymous)".toList, "src/app.ts".toList, "a.js".toList,
          some 10, some 5, 1, 2, true⟩ : ParsedStackFrame)] =
          parseSourceMapCore consumerDecode [sampleDoc] frames ∧
        [(⟨"(anonymous)".toList, "src/app.ts".toList, "a.js".toList,
          some 10, some 5, 1, 2, true⟩ : ParsedStackFrame)].length = frames.length ∧
        ∀ i (hi : i < frames.length)
          (hr : i < [(⟨"(anonymous)".toList, "src/app.ts".toList, "a.js".toList,
            some 10, some 5, 1, 2, true⟩ : ParsedStackFrame)].length),
          ([(⟨"(anonymous)".toList, "src/app.ts".toList, "a.js".toList,
            some 10, some 5, 1, 2, true⟩ : ParsedStackFrame)].get ⟨i, hr⟩).line =
              (frames.get ⟨i, hi⟩).line ∧
          ([(⟨"(anonymous)".toList, "src/app.ts".toList, "a.js".toList,
            some 10, some 5, 1, 2, true⟩ : ParsedStackFrame)].get ⟨i, hr⟩).column =
              (frames.get ⟨i, hi⟩).column ∧
          (findMatchingSourceMap (frames.get ⟨i, hi⟩).filename [sampleDoc] = none →
            [(⟨"(anonymous)".toList, "src/app.ts".toList, "a.js".toList,
              some 10, some 5, 1, 2, true⟩ : ParsedStackFrame)].get ⟨i, hr⟩ =
              fallbackFrame (frames.get ⟨i, hi⟩))) :=
  ⟨by decide,
    claim_c6_one_output_per_frame jpNone consumerDecode [sampleDoc]
      ("a.js:1:2".toList) _ (by decide)⟩

/-- A decoder that fails on every document, standing for the real decoder
applied to documents whose parsed JSON is not a valid source map. -/
def decodeFail : SourceMapContent → Option QueryFun := fun _ => none

/-- The matched-document step under the real asynchronous semantics of the
decode step.  `SourceMapConsumer.with` of source-map 0.7 is `static async`
and never throws synchronously: on a document that is not a valid source
map it rejects its promise.  `getConsumer` wraps the call in a `new
Promise` whose executor only ever resolves, so the rejection is discarded
and the wrapper promise never settles; the `await` in the frame loop then
suspends forever inside the per-frame `try`, whose `catch` never runs.
`none` models an await that never settles (the enclosing call never
returns); a null content rejects the same way. -/
def resolveFrameAwait (decode : SourceMapContent → Option QueryFun)
    (maps : List SourceMapFile) (frame : StackFrame) : Option ParsedStackFrame :=
  match findMatchingSourceMap frame.filename maps with
  | none => some (fallbackFrame frame)
  | some matchedMap =>
    match matchedMap.content with
    | none => none
    | some c =>
      match decode c with
      | none => none
      | some q => some (resolveWith q frame)

/-- The frame loop under the asynchronous decode semantics: frames are
awaited in order, so the first never-settling await freezes the loop and
no result list is ever produced. -/
def parseSourceMapCoreAwait (decode : SourceMapContent → Option QueryFun)
    (maps : List SourceMapFile) : List StackFrame → Option (List ParsedStackFrame)
  | [] => some []
  | f :: fs =>
    match resolveFrameAwait decode maps f with
    | none => none
    | some r =>
      match parseSourceMapCoreAwait decode maps fs with
      | none => none
      | some rs => some (r :: rs)

/-- `parseSourceMap` under the asynchronous decode semantics: `none` means
the call never returns — it neither throws nor produces a frame list. -/
def parseSourceMapAwait (jp : Str → Option Json)
    (decode : SourceMapContent → Option QueryFun)
    (sourceMaps : List SourceMapFile) (errorInfo : Str) :
    Option (Except ParseError (List ParsedStackFrame)) :=
  if sourceMaps = [] then some (.error .noSourceMaps)
  else if jsTrim errorInfo = [] then some (.error .emptyErrorInfo)
  else
    match stackFramesFor jp errorInfo with
    | none => some (.error .unparseableStack)
    | some [] => some (.error .unparseableStack)
    | some frames =>
      match parseSourceMapCoreAwait decode sourceMaps frames with
      | none => none
      | some results =>
        if results = [] then some (.error .noResults) else some (.ok results)

/-- The per-document predicate of the matcher loop: skip documents without
content, otherwise run the checks. -/
def docAnyRule (filename : Str) (d : SourceMapFile) : Bool :=
  match d.content with
  | none => false
  | some c => docRuleMatch (normalizeName filename) filename c

lemma matched_has_content {filename : Str} {maps : List SourceMapFile}
    {d : SourceMapFile} (h : findMatchingSourceMap filename maps = some d) :
    ∃ c, d.content = some c := by
  unfold findMatchingSourceMap at h
  by_cases hcond : filename = [] ∨ maps = []
  · rw [if_pos hcond] at h
    cases h
  · rw [if_neg hcond] at h
    have hd : List.find? (docAnyRule filename) maps = some d := h
    have hp := List.find?_some hd
    unfold docAnyRule at hp
    cases hc : d.content with
    | none => simp [hc] at hp
    | some c => exact ⟨c, rfl⟩

/-- On the shipped decoder every await settles, so the asynchronous model
coincides with the terminating frame step. -/
lemma resolveFrameAwait_consumerDecode (maps : List SourceMapFile)
    (frame : StackFrame) :
    resolveFrameAwait consumerDecode maps frame =
      some (resolveFrame consumerDecode maps frame) := by
  rcases h1 : findMatchingSourceMap frame.filename maps with _ | doc
  · unfold resolveFrameAwait
    rw [h1, resolveFrame_eq_miss h1]
  · obtain ⟨c, hc⟩ := matched_has_content h1
    obtain ⟨dn, dc⟩ := doc
    have hc' : dc = some c := hc
    subst hc'
    unfold resolveFrameAwait
    rw [h1, resolveFrame_eq_doc h1]
    rfl

lemma parseSourceMapCoreAwait_consumerDecode (maps : List SourceMapFile) :
    ∀ frames, parseSourceMapCoreAwait consumerDecode maps frames =
      some (parseSourceMapCore consumerDecode maps frames) := by
  intro frames
  induction frames with
  | nil => rfl
  | cons f fs ih =>
    unfold parseSourceMapCoreAwait
    rw [resolveFrameAwait_consumerDecode, ih]
    rfl

/-- With the shipped decoder, the asynchronous model returns exactly what
the terminating model computes. -/
lemma parseSourceMapAwait_consumerDecode (jp : Str → Option Json)
    (maps : List SourceMapFile) (errorInfo : Str) :
    parseSourceMapAwait jp consumerDecode maps errorInfo =
      some (parseSourceMap jp consumerDecode maps errorInfo) := by
  unfold parseSourceMapAwait parseSourceMap
  by_cases h1 : maps = []
  · simp [h1]
  · by_cases h2 : jsTrim errorInfo = []
    · simp [h1, h2]
    · simp only [if_neg h1, if_neg h2]
      cases h3 : stackFramesFor jp errorInfo with
      | none => rfl
      | some frames =>
        cases frames with
        | nil => rfl
        | cons f fs =>
          have hne : parseSourceMapCore consumerDecode maps (f :: fs) ≠ [] := by
            simp [parseSourceMapCore]
          simp only [parseSourceMapCoreAwait_consumerDecode, if_neg hne]

/-- The malformed document of the failing input: its parsed JSON carries
only a compiled-file name (no version, sources or mappings), which is
enough for the matcher — it reads only `file` and `sources` — but makes
the decode step reject. -/
def malformedContent : SourceMapContent := ⟨some ("app.js".toList), [], []⟩

def malformedDoc : SourceMapFile := ⟨"app.js.map".toList, some malformedContent⟩

/-- Claim C8 (code bug): the spec's intent — a failed decode of a matched
document is caught at first use and the frame downgrades to an unmapped
fallback, never aborting the batch — is what the loop's own `catch` and
fallback push are written for, but the code does not deliver it.  On the
failing input (a matched document that is not a valid source map, and a
frame pointing at it) the asynchronous rejection of `SourceMapConsumer.with`
is discarded by `getConsumer`'s resolve-only wrapper, the `await` never
settles, and the call never returns: no fallback frame is emitted and no
frame list (nor any thrown error) is ever produced. -/
theorem claim_c8_code_bug_hang :
    findMatchingSourceMap ("app.js".toList) [malformedDoc] = some malformedDoc ∧
    decodeFail malformedContent = none ∧
    parseTextStack ("app.js:1:50".toList) =
      some [⟨"app.js".toList, none, 1, 50⟩] ∧
    parseSourceMapAwait jpNone decodeFail [malformedDoc] ("app.js:1:50".toList) =
      none ∧
    ∀ l, parseSourceMapAwait jpNone decodeFail [malformedDoc]
      ("app.js:1:50".toList) ≠ some (.ok l) := by
  have hnone : parseSourceMapAwait jpNone decodeFail [malformedDoc]
      ("app.js:1:50".toList) = none := by decide
  refine ⟨by decide, rfl, by decide, hnone, ?_⟩
  intro l hl
  rw [hnone] at hl
  cases hl

lemma foldl_insertByDist_head (c : Int) :
    ∀ (l t : List Int), ∃ t2,
      List.foldl (fun a x => insertByDist c x a) (c :: t) l = c :: t2 := by
  intro l
  induction l with
  | nil => exact fun t => ⟨t, rfl⟩
  | cons x xs ih =>
    intro t
    have hx : insertByDist c x (c :: t) = c :: insertByDist c x t := by
      show (if (c - c).natAbs ≤ (x - c).natAbs then c :: insertByDist c x t
        else x :: c :: t) = c :: insertByDist c x t
      rw [if_pos (by simp)]
    simp only [List.foldl_cons, hx]
    exact ih (insertByDist c x t)

lemma uniqueColumns_head (c : Int) : ∃ t, uniqueColumns c = c :: t := by
  obtain ⟨rest, hrest⟩ : ∃ rest, dedupFirst [] (candList c) = c :: rest :=
    ⟨_, rfl⟩
  unfold uniqueColumns sortByDist
  rw [hrest]
  simp only [List.foldl_cons]
  exact foldl_insertByDist_head c rest []

lemma consumerQuery_single {mappings : List Mapping} {m : Mapping} {i : OrigInfo}
    {line : Int}
    (hline : mappings.filter (fun mp => decide (mp.genLine = line)) = [m])
    (hcol : m.genCol = 0) (hinfo : m.info = some i) {col : Int} (hc : 0 ≤ col) :
    consumerQuery mappings line col = some i := by
  unfold consumerQuery
  have hcomm : (fun mp : Mapping =>
      decide (mp.genLine = line) && decide (mp.genCol ≤ col)) =
      fun mp => decide (mp.genCol ≤ col) && decide (mp.genLine = line) := by
    funext mp
    rw [Bool.and_comm]
  rw [hcomm, ← List.filter_filter, hline]
  have : (0 : Int) ≤ col := hc
  simp [List.filter, hcol, this, hinfo]

lemma firstHit_head_hit {q : QueryFun} {line : Int} {c0 : Int} {t : List Int}
    (hc : ¬ c0 < 0) {i : OrigInfo} (hq : q line c0 = some i) (hs : i.source ≠ []) :
    firstHit q line (c0 :: t) = some i := by
  simp only [firstHit, if_neg hc, hq]
  rw [if_pos hs]

/-- Claim C5: if the matched document's index has exactly one mapping on the
queried generated line and it sits at generated column 0 with a non-empty
source, then resolving any requested compiled column on that line succeeds
with that mapping, reporting the original line as-is and the original
column converted from 0-based to 1-based. -/
theorem claim_c5_single_mapping_resolves (maps : List SourceMapFile)
    (frame : StackFrame) (doc : SourceMapFile) (c : SourceMapContent)
    (m : Mapping) (i : OrigInfo)
    (hmatch : findMatchingSourceMap frame.filename maps = some doc)
    (hcontent : doc.content = some c)
    (hline : c.mappings.filter
      (fun mp => decide (mp.genLine = max 1 frame.line)) = [m])
    (hcol : m.genCol = 0) (hinfo : m.info = some i) (hsrc : i.source ≠ []) :
    resolveFrame consumerDecode maps frame = mkMapped frame i ∧
    (resolveFrame consumerDecode maps frame).hasMapping = true ∧
    (resolveFrame consumerDecode maps frame).source = i.source ∧
    (resolveFrame consumerDecode maps frame).originalLine = some i.line ∧
    (resolveFrame consumerDecode maps frame).originalColumn = some (i.column + 1) := by
  have hc0 : (0 : Int) ≤ max 0 (frame.column - 1) := le_max_left _ _
  obtain ⟨t, ht⟩ := uniqueColumns_head (max 0 (frame.column - 1))
  have hfh : firstHit (consumerQuery c.mappings) (max 1 frame.line)
      (uniqueColumns (max 0 (frame.column - 1))) = some i := by
    rw [ht]
    exact firstHit_head_hit (by omega)
      (consumerQuery_single hline hcol hinfo hc0) hsrc
  have hrp : resolvePosition (consumerQuery c.mappings) (max 1 frame.line)
      (max 0 (frame.column - 1)) = some i := by
    unfold resolvePosition
    rw [hfh]
  have hrw : resolveWith (consumerQuery c.mappings) frame = mkMapped frame i := by
    simp only [resolveWith]
    rw [hrp]
  have hrf : resolveFrame consumerDecode maps frame = mkMapped frame i := by
    rw [resolveFrame_eq_doc hmatch]
    unfold resolveWithDoc
    rw [hcontent]
    exact hrw
  exact ⟨hrf, by rw [hrf]; rfl, by rw [hrf]; rfl, by rw [hrf]; rfl, by rw [hrf]; rfl⟩

theorem claim_c5_witness :
    (findMatchingSourceMap sampleFrame.filename [sampleDoc] = some sampleDoc ∧
      sampleDoc.content = some sampleContent ∧
      sampleContent.mappings.filter
        (fun mp => decide (mp.genLine = max 1 sampleFrame.line)) = [sampleMapping] ∧
      sampleMapping.genCol = 0 ∧ sampleMapping.info = some sampleInfo ∧
      sampleInfo.source ≠ []) ∧
    resolveFrame consumerDecode [sampleDoc] sampleFrame = mkMapped sampleFrame sampleInfo ∧
    (resolveFrame consumerDecode [sampleDoc] sampleFrame).hasMapping = true ∧
    (resolveFrame consumerDecode [sampleDoc] sampleFrame).source = "src/app.ts".toList ∧
    (resolveFrame consumerDecode [sampleDoc] sampleFrame).originalLine = some 10 ∧
    (resolveFrame consumerDecode [sampleDoc] sampleFrame).originalColumn = some 5 :=
  ⟨⟨by decide, rfl, by decide, rfl, rfl, by decide⟩,
    (claim_c5_single_mapping_resolves [sampleDoc] sampleFrame sampleDoc
      sampleContent sampleMapping sampleInfo (by decide) rfl (by decide) rfl rfl
      (by decide)).1,
    (claim_c5_single_mapping_resolves [sampleDoc] sampleFrame sampleDoc
      sampleContent sampleMapping sampleInfo (by decide) rfl (by decide) rfl rfl
      (by decide)).2.1,
    (claim_c5_single_mapping_resolves [sampleDoc] sampleFrame sampleDoc
      sampleContent sampleMapping sampleInfo (by decide) rfl (by decide) rfl rfl
      (by decide)).2.2.1,
    (claim_c5_single_mapping_resolves [sampleDoc] sampleFrame sampleDoc
      sampleContent sampleMapping sampleInfo (by decide) rfl (by decide) rfl rfl
      (by decide)).2.2.2.1,
    (claim_c5_single_mapping_resolves [sampleDoc] sampleFrame sampleDoc
      sampleContent sampleMapping sampleInfo (by decide) rfl (by decide) rfl rfl
      (by decide)).2.2.2.2⟩

/-- Rule (1) exactly as the claim words it: exact equality of the
normalized compiled-file name or of a normalized source entry with the
normalized target. -/
def claimRule1 (filename : Str) (d : SourceMapFile) : Bool :=
  match d.content with
  | none => false
  | some c =>
    let targetFile := normalizeName filename
    let mapFile := c.file.getD []
    (decide (mapFile ≠ []) && decide (normalizeName mapFile = targetFile)) ||
    c.sources.any fun s => decide (normalizeName s = targetFile)

/-- An earlier document matching only by containment (rule 2). -/
def docContainOnly : SourceMapFile := ⟨"A".toList, some ⟨some ("ab.js".toList), [], []⟩⟩

/-- A later document matching by exact normalized equality (rule 1). -/
def docExact : SourceMapFile := ⟨"B".toList, some ⟨some ("b.js".toList), [], []⟩⟩

/-- Claim C1 counterexample: the matcher is document-major, not rule-major.
For target `b.js`, the later document `docExact` satisfies rule (1) and the
earlier `docContainOnly` satisfies only containment, yet the matcher
returns `docContainOnly`. -/
theorem claim_c1_counterexample :
    findMatchingSourceMap ("b.js".toList) [docContainOnly, docExact] =
        some docContainOnly ∧
      claimRule1 ("b.js".toList) docExact = true ∧
      claimRule1 ("b.js".toList) docContainOnly = false ∧
      docContainOnly ≠ docExact := by decide

lemma find?_first {α : Type} (p : α → Bool) :
    ∀ (l : List α) (d : α), l.find? p = some d →
      ∃ n, ∃ hn : n < l.length, l.get ⟨n, hn⟩ = d ∧ p d = true ∧
        ∀ k (hk : k < n), p (l.get ⟨k, Nat.lt_trans hk hn⟩) = false := by
  intro l
  induction l with
  | nil => intro d hd; simp [List.find?] at hd
  | cons a as ih =>
    intro d hd
    by_cases hpa : p a = true
    · rw [List.find?_cons_of_pos _ hpa] at hd
      injection hd with hd
      subst hd
      exact ⟨0, by simp, rfl, hpa, fun k hk => absurd hk (Nat.not_lt_zero k)⟩
    · rw [List.find?_cons_of_neg _ hpa] at hd
      obtain ⟨n, hn, hget, hpd, hbefore⟩ := ih d hd
      refine ⟨n + 1, by simpa using Nat.succ_lt_succ hn, by simpa using hget, hpd, ?_⟩
      intro k hk
      cases k with
      | zero => simpa using Bool.not_eq_true (p a) ▸ hpa
      | succ j =>
        have := hbefore j (by omega)
        simpa using this

/-- Claim C1, amended: the matcher scans documents in upload order, testing
each document against all its checks before moving on; the first document
passing any check wins (so an earlier containment-only match beats a later
exact match), and when no document passes any check none is returned. -/
theorem claim_c1_amended_document_major (filename : Str) (maps : List SourceMapFile)
    (hne : filename ≠ []) :
    (findMatchingSourceMap filename maps = none ↔
      ∀ d ∈ maps, docAnyRule filename d = false) ∧
    ∀ d, findMatchingSourceMap filename maps = some d →
      ∃ n, ∃ hn : n < maps.length, maps.get ⟨n, hn⟩ = d ∧
        docAnyRule filename d = true ∧
        ∀ k (hk : k < n), docAnyRule filename (maps.get ⟨k, Nat.lt_trans hk hn⟩) = false := by
  by_cases hm : maps = []
  · subst hm
    refine ⟨by simp [findMatchingSourceMap], ?_⟩
    intro d hd
    simp [findMatchingSourceMap] at hd
  · have hcond : ¬(filename = [] ∨ maps = []) := by
      intro hc
      rcases hc with hc | hc
      · exact hne hc
      · exact hm hc
    have hunf : findMatchingSourceMap filename maps =
        List.find? (docAnyRule filename) maps := by
      unfold findMatchingSourceMap
      rw [if_neg hcond]
      rfl
    constructor
    · rw [hunf, List.find?_eq_none]
      constructor
      · intro h d hd
        have := h d hd
        simpa using this
      · intro h d hd
        simp [h d hd]
    · intro d hd
      rw [hunf] at hd
      exact find?_first (docAnyRule filename) maps d hd

theorem claim_c1_amended_witness :
    ("b.js".toList ≠ []) ∧
      ((findMatchingSourceMap ("b.js".toList) [docContainOnly, docExact] = none ↔
        ∀ d ∈ [docContainOnly, docExact], docAnyRule ("b.js".toList) d = false) ∧
      ∀ d, findMatchingSourceMap ("b.js".toList) [docContainOnly, docExact] = some d →
        ∃ n, ∃ hn : n < [docContainOnly, docExact].length,
          [docContainOnly, docExact].get ⟨n, hn⟩ = d ∧
          docAnyRule ("b.js".toList) d = true ∧
          ∀ k (hk : k < n),
            docAnyRule ("b.js".toList)
              ([docContainOnly, docExact].get ⟨k, Nat.lt_trans hk hn⟩) = false) :=
  ⟨by decide, claim_c1_amended_document_major ("b.js".toList)
    [docContainOnly, docExact] (by decide)⟩

/-- Claim C2 counterexample: a line-only input (`FILE:LINE`, no column)
yields no frame at all — the text dialect does not default the column to 0. -/
theorem claim_c2_counterexample :
    parseTextStack ("file.js:10".toList) = none := by decide

/-- Claim C2, amended: the text dialect has exactly the three
explicit-column patterns — every produced frame comes from one of them —
and line-only inputs such as `at FUNC (FILE:LINE)` are skipped rather than
parsed with a zero column, while the three explicit-column forms do parse. -/
theorem claim_c2_amended_three_patterns :
    (∀ (t : Str) (fr : StackFrame), parseTextLine t = some fr →
      (scanAt p1afterAt t).isSome = true ∨ (scanAt p2afterAt t).isSome = true ∨
        (p3match t).isSome = true) ∧
    parseTextStack ("at f (file.js:7)".toList) = none ∧
    parseTextStack ("at f (a.js:1:2)\nat b.js:3:4\nc.js:5:6".toList) =
      some [⟨"a.js".toList, some ("f".toList), 1, 2⟩,
        ⟨"b.js".toList, none, 3, 4⟩, ⟨"c.js".toList, none, 5, 6⟩] := by
  refine ⟨?_, by decide, by decide⟩
  intro t fr h
  unfold parseTextLine at h
  rcases h1 : scanAt p1afterAt t with _ | x
  · rcases h2 : scanAt p2afterAt t with _ | y
    · rcases h3 : p3match t with _ | z
      · simp [h1, h2, h3] at h
      · exact Or.inr (Or.inr (by simp [h3]))
    · exact Or.inr (Or.inl (by simp [h2]))
  · exact Or.inl (by simp [h1])

theorem claim_c2_amended_witness :
    parseTextLine ("a.js:1:2".toList) =
        some ⟨"a.js".toList, none, 1, 2⟩ ∧
      ((scanAt p1afterAt ("a.js:1:2".toList)).isSome = true ∨
        (scanAt p2afterAt ("a.js:1:2".toList)).isSome = true ∨
        (p3match ("a.js:1:2".toList)).isSome = true) :=
  ⟨by decide, claim_c2_amended_three_patterns.1 ("a.js:1:2".toList)
    ⟨"a.js".toList, none, 1, 2⟩ (by decide)⟩

/-- `JSON.parse` at the counterexample input: a JSON array holding one
string, exactly what the standard grammar mandates for this text. -/
def jpArr : Str → Option Json := fun s =>
  if s = ("[\"at f.js:1:2\"]".toList) then
    some (.arr [.str ("at f.js:1:2".toList)])
  else none

/-- Claim C7 counterexample: on the input `["at f.js:1:2"]` the call throws
the unparseable-stack error although the text dialect parses one frame from
that very text — the JSON dialect returned an empty (truthy) array, so the
text dialect was never consulted.  Hence "throws exactly when zero frames
are parseable by either dialect" fails. -/
theorem claim_c7_counterexample :
    parseSourceMap jpArr consumerDecode [sampleDoc] ("[\"at f.js:1:2\"]".toList) =
        .error .unparseableStack ∧
      parseTextStack ("[\"at f.js:1:2\"]".toList) =
        some [⟨"f.js".toList, none, 1, 2⟩] := by decide

/-- Claim C7, amended: `parseSourceMap` throws exactly when the document
list is empty, the error text trims to empty, or the dialect cascade (JSON
first; text only when the JSON dialect yields null) produces no frames; and
on blank text the failure is the empty-text error, independent of the
decoder and of `JSON.parse` — no document is consulted. -/
theorem claim_c7_amended_error_iff (jp : Str → Option Json)
    (decode : SourceMapContent → Option QueryFun) (maps : List SourceMapFile)
    (errorInfo : Str) :
    ((∃ e, parseSourceMap jp decode maps errorInfo = .error e) ↔
      (maps = [] ∨ jsTrim errorInfo = [] ∨ stackFramesFor jp errorInfo = none ∨
        stackFramesFor jp errorInfo = some [])) ∧
    (maps ≠ [] → jsTrim errorInfo = [] →
      ∀ (jp₂ : Str → Option Json) (decode₂ : SourceMapContent → Option QueryFun),
        parseSourceMap jp decode maps errorInfo = .error .emptyErrorInfo ∧
        parseSourceMap jp₂ decode₂ maps errorInfo = .error .emptyErrorInfo) := by
  constructor
  · constructor
    · rintro ⟨e, he⟩
      by_contra hcon
      push_neg at hcon
      obtain ⟨h1, h2, h3, h4⟩ := hcon
      unfold parseSourceMap at he
      rw [if_neg h1, if_neg h2] at he
      cases h5 : stackFramesFor jp errorInfo with
      | none => exact h3 h5
      | some frames =>
        cases frames with
        | nil => exact h4 h5
        | cons f fs =>
          simp only [h5] at he
          have hne : parseSourceMapCore decode maps (f :: fs) ≠ [] := by
            simp [parseSourceMapCore]
          rw [if_neg hne] at he
          cases he
    · intro hcond
      by_cases h1 : maps = []
      · exact ⟨.noSourceMaps, by simp [parseSourceMap, h1]⟩
      · by_cases h2 : jsTrim errorInfo = []
        · exact ⟨.emptyErrorInfo, by simp [parseSourceMap, h1, h2]⟩
        · rcases hcond with h | h | h | h
          · exact absurd h h1
          · exact absurd h h2
          · exact ⟨.unparseableStack, by simp [parseSourceMap, h1, h2, h]⟩
          · exact ⟨.unparseableStack, by simp [parseSourceMap, h1, h2, h]⟩
  · intro h1 h2 jp₂ decode₂
    constructor <;> simp [parseSourceMap, h1, h2]

theorem claim_c7_amended_witness :
    ([sampleDoc] ≠ ([] : List SourceMapFile)) ∧ jsTrim ("  ".toList) = [] ∧
      parseSourceMap jpNone consumerDecode [sampleDoc] ("  ".toList) =
        .error .emptyErrorInfo ∧
      parseSourceMap jpArr decodeFail [sampleDoc] ("  ".toList) =
        .error .emptyErrorInfo :=
  ⟨by decide, by decide,
    ((claim_c7_amended_error_iff jpNone consumerDecode [sampleDoc]
      ("  ".toList)).2 (by decide) (by decide) jpArr decodeFail).1,
    ((claim_c7_amended_error_iff jpNone consumerDecode [sampleDoc]
      ("  ".toList)).2 (by decide) (by decide) jpArr decodeFail).2⟩
